import Mathlib

/-!
Verification development for the grokipedia-citation-analyzer repository.

The repository consists of two Python scripts:

* `citation_verifier.py` (the domain pipeline): fetches an article, walks its
  `<sup>` citation markers, dereferences footnote anchors, collects external
  links per citation, classifies each link by network domain, and groups the
  citations by domain.
* `citation_verifier_llm.py` (the semantic pipeline): the same marker walk with
  a whole-document fallback, then per-citation fetching of the representative
  link and classification of the credited outlet through an injected
  text-classification backend.

The development embeds both scripts shallowly.  Pure Python string operations
are translated to executable functions over `String.data` (the underlying
character list), the parsed-document collaborator (BeautifulSoup) is embedded
as the record of query results the scripts actually perform on the tree, and
the effectful collaborators (HTTP fetch, text-classification backend) are
function parameters.  Machine-level concerns (bytes, encodings) do not arise:
every operation in the scripts is over code-point sequences, which `String.data`
models exactly.
-/

/-! ### Python string primitives

Each of these is a direct translation of the Python string method the scripts
use, working on the code-point list `String.data`. -/

/-- Python `s.startswith(p)`: `p` is a code-point-wise leading segment of `s`. -/
def pyStartswith (s p : String) : Bool :=
  p.data.isPrefixOf s.data

/-- Python `s.lower()` (the scripts only ever lowercase ASCII output). -/
def pyLower (s : String) : String :=
  ⟨s.data.map Char.toLower⟩

/-- Python `s.strip()`: remove leading and trailing whitespace. -/
def pyStrip (s : String) : String :=
  ⟨((s.data.dropWhile Char.isWhitespace).reverse.dropWhile Char.isWhitespace).reverse⟩

/-- Python `s.split("\n")[0]`: everything before the first newline. -/
def firstLine (s : String) : String :=
  ⟨s.data.takeWhile (fun c => c ≠ '\n')⟩

/-- Python `s[1:]`: drop the first code point. -/
def dropFirstChar (s : String) : String :=
  ⟨s.data.drop 1⟩

/-! ### Link normalizer

Modelled from the spec: the spec (section 4.1) delegates URL resolution to
standard URL-joining semantics; the scripts realize it through the external
library function `urllib.parse.urljoin` together with `urllib.parse.urlparse`
for the domain.  The model below reproduces that library behaviour for the
reference forms the scripts and this development exercise: references carrying
their own scheme, fragment-only references, protocol-relative, root-relative
and relative-path references.  (Dot-segment resolution and the merge of two
same-scheme URLs without an authority are not reproduced; no theorem below
depends on those forms.) -/

/-- Characters allowed in a URL scheme by `urllib.parse` (letters, digits,
`+`, `-`, `.`). -/
def isSchemeChar (c : Char) : Bool :=
  c.isAlpha || c.isDigit || c == '+' || c == '-' || c == '.'

/-- Split a leading `scheme:` off a URL, in the manner of `urllib.parse`:
the portion before the first `:` qualifies as a scheme when it is nonempty and
made of scheme characters only. -/
def splitScheme (l : List Char) : Option (List Char × List Char) :=
  match l.dropWhile isSchemeChar with
  | c :: r => if c = ':' ∧ l.takeWhile isSchemeChar ≠ [] then
      some (l.takeWhile isSchemeChar, r) else none
  | [] => none

/-- The URL with its scheme (if any) removed. -/
def restAfterScheme (l : List Char) : List Char :=
  match splitScheme l with
  | some p => p.2
  | none => l

/-- True for characters that do not end the authority component. -/
def notUrlDelim (c : Char) : Bool :=
  c ≠ '/' && c ≠ '?' && c ≠ '#'

/-- The authority (netloc) of a scheme-stripped URL: present exactly when the
remainder opens with `//`, and runs to the next `/`, `?` or `#`. -/
def nlTail (l : List Char) : List Char :=
  match l with
  | c1 :: c2 :: r => if c1 = '/' ∧ c2 = '/' then r.takeWhile notUrlDelim else []
  | _ => []

/-- `urlparse(url).netloc` as a character list. -/
def netlocChars (l : List Char) : List Char :=
  nlTail (restAfterScheme l)

/-- `get_domain` from `citation_verifier.py`:
`urlparse(url).netloc.lower()`. -/
def get_domain (url : String) : String :=
  ⟨(netlocChars url.data).map Char.toLower⟩

/-- The URL up to (excluding) its fragment part. -/
def stripFragment (s : String) : String :=
  ⟨s.data.takeWhile (fun c => c ≠ '#')⟩

/-- The URL up to (excluding) its query and fragment parts. -/
def stripQueryFrag (s : String) : String :=
  ⟨s.data.takeWhile (fun c => c ≠ '?' ∧ c ≠ '#')⟩

/-- The URL through its last `/` (used for relative-path joining). -/
def upToLastSlash (s : String) : String :=
  ⟨(s.data.reverse.dropWhile (fun c => c ≠ '/')).reverse⟩

/-- The `scheme://netloc` part of an absolute URL (used for root-relative
joining; not exercised by any theorem below). -/
def schemeNetloc (s : String) : String :=
  match splitScheme s.data with
  | some p => (⟨p.1⟩ : String) ++ "://" ++ (⟨netlocChars s.data⟩ : String)
  | none => "//" ++ (⟨netlocChars s.data⟩ : String)

/-- `urllib.parse.urljoin(base, url)` for the reference forms exercised by the
scripts: a reference with its own scheme stands alone; a fragment-only
reference replaces the fragment of the base; a protocol-relative reference
inherits the scheme; a root-relative reference inherits `scheme://netloc`;
anything else replaces the last path segment. -/
def urljoin (base url : String) : String :=
  if base = "" then url
  else if url = "" then base
  else match splitScheme url.data with
  | some _ => url
  | none =>
    if pyStartswith url "#" then stripFragment base ++ url
    else if pyStartswith url "//" then
      (match splitScheme base.data with
       | some p => (⟨p.1⟩ : String) ++ ":" ++ url
       | none => url)
    else if pyStartswith url "/" then schemeNetloc base ++ url
    else upToLastSlash (stripQueryFrag base) ++ url

/-- Spec predicate (section 4.1): the URL has scheme `http` or `https`.  This
is the filter the spec prescribes; the theorems below compare it with what the
scripts actually keep. -/
def schemeIsHttpOrHttps (u : String) : Bool :=
  match splitScheme u.data with
  | some p => p.1 == "http".data || p.1 == "https".data
  | none => false

/-! ### The parsed document

The scripts interrogate the BeautifulSoup tree through exactly three queries:
the `<sup>` elements in document order (reading the `href` of the first anchor
inside each), `soup.find(id=...)` (reading the `href` values of the anchors
inside the found element), and `soup.find_all('a', href=True)` over the whole
document.  `Doc` records the results of those queries.  A `sup` entry is
`none` when the marker has no anchor or its anchor carries no `href`
attribute (the script treats the two identically); it is `some h` when the
first anchor carries `href` value `h` (possibly empty).  In a real document the
whole-document link list contains the marker and footnote anchors as well; no
claim depends on that containment, so the three query results are independent
fields here. -/

structure Footnote where
  id : String
  /-- the `href` values of the `<a href=...>` elements inside, in order -/
  links : List String
deriving DecidableEq, Repr

structure Doc where
  /-- per `<sup>` marker: the `href` of its first anchor, if any -/
  sups : List (Option String)
  /-- the id-bearing elements, as searched by `soup.find(id=...)` -/
  footnotes : List Footnote
  /-- the `href` values of every `<a href=...>` in the whole document -/
  allLinks : List String
deriving DecidableEq, Repr

/-- `soup.find(id=fid)`: first element carrying the id. -/
def findById (doc : Doc) (fid : String) : Option Footnote :=
  doc.footnotes.find? (fun f => f.id = fid)

/-! ### Marker resolution (`extract_citation_links`, both scripts)

The loop body of `extract_citation_links` for one `<sup>` marker, returning
`none` when the marker is skipped (`continue` in the script) and `some links`
when `citation_refs.append(links)` runs.  Both scripts contain the identical
loop (lines 28-50 of `citation_verifier.py`, 42-58 of
`citation_verifier_llm.py`). -/
def resolveSup (article_url : String) (doc : Doc) (sup : Option String) :
    Option (List String) :=
  match sup with
  | none => none
  | some href =>
    if href = "" then none
    else if pyStartswith href "#" then
      match findById doc (dropFirstChar href) with
      | none => none
      | some footnote =>
        some ((footnote.links.map (fun u => urljoin article_url u)).filter
          (fun fu => pyStartswith fu "http"))
    else some [urljoin article_url href]

/-- `extract_citation_links` of `citation_verifier.py`: one entry per marker
that is not skipped, in document order. -/
def extract_citation_links (article_url : String) (doc : Doc) :
    List (List String) :=
  doc.sups.filterMap (resolveSup article_url doc)

/-- `extract_citation_links` of `citation_verifier_llm.py`: the same marker
walk, falling back to one singleton pseudo-citation per kept document-wide
link when the walk produced no citation at all. -/
def extract_citation_links_llm (article_url : String) (doc : Doc) :
    List (List String) :=
  let citation_refs := doc.sups.filterMap (resolveSup article_url doc)
  if citation_refs = [] then
    ((doc.allLinks.map (fun u => urljoin article_url u)).filter
      (fun fu => pyStartswith fu "http")).map (fun u => [u])
  else citation_refs

/-- The number of citation markers the enumeration finds: `<sup>` elements
containing a hyperlink (an anchor with a nonempty `href`), the notion of
marker in spec section 4.2 step 1. -/
def markersFound (doc : Doc) : Nat :=
  doc.sups.countP (fun s => match s with
    | some h => h != ""
    | none => false)

/-! ### Aggregation (`analyze_dependencies` and the report of `main`)

`enumerate(-, start=1)` is `List.enumFrom 1`.  Python `dict` preserves
insertion order, so the two dictionaries the scripts build are embedded as
association lists in insertion order.  `set(domains)` in the grouping loop is
embedded as first-occurrence deduplication; the iteration order of a Python
`set` is unspecified, and no claim under test depends on the order in which
the keys of one citation enter the grouping. -/

/-- First-occurrence deduplication, with the elements already emitted carried
in `seen`. -/
def distinctAux (seen : List String) : List String → List String
  | [] => []
  | x :: xs => if seen.contains x then distinctAux seen xs
      else x :: distinctAux (x :: seen) xs

/-- First-occurrence deduplication (model of iterating a Python `set` built
from a list). -/
def distinctList (l : List String) : List String :=
  distinctAux [] l

/-- `m[k].append(v)` on a `defaultdict(list)` / `m.setdefault(k, []).append(v)`
on a `dict`, as an insertion-ordered association list. -/
def alistAppend {κ : Type} [DecidableEq κ] (m : List (κ × List Nat)) (k : κ)
    (v : Nat) : List (κ × List Nat) :=
  match m with
  | [] => [(k, [v])]
  | p :: rest => if p.1 = k then (k, p.2 ++ [v]) :: rest
      else p :: alistAppend rest k v

/-- Association-list lookup (the value a Python `dict` holds under a key). -/
def alookup {κ : Type} [DecidableEq κ] {α : Type}
    (m : List (κ × α)) (k : κ) : Option α :=
  match m with
  | [] => none
  | p :: rest => if p.1 = k then some p.2 else alookup rest k

/-- The body of the grouping loop of `analyze_dependencies` for one citation
`p = (ordinal, domains)`: `for d in set(domains): domain_to_citations[d].append(ordinal)`. -/
def groupInsert (m : List (String × List Nat)) (p : Nat × List String) :
    List (String × List Nat) :=
  (distinctList p.2).foldl (fun m2 d => alistAppend m2 d p.1) m

/-- `analyze_dependencies` of `citation_verifier.py`: the mapping from
citation ordinal (1-based) to the list of domains of its links, and the
inverse grouping from domain to the citation ordinals touching it. -/
def analyze_dependencies (citation_refs : List (List String)) :
    List (Nat × List String) × List (String × List Nat) :=
  let citation_sources := (citation_refs.enumFrom 1).map
    (fun p => (p.1, p.2.map get_domain))
  let domain_to_citations := citation_sources.foldl groupInsert []
  (citation_sources, domain_to_citations)

/-- The ordinals of the citations whose domain list contains `k`, in citation
order (the reference list a correct grouping must hold under key `k`). -/
def groupOf (cs : List (Nat × List String)) (k : String) : List Nat :=
  (cs.filter (fun p => k ∈ p.2)).map Prod.fst

/-! ### The semantic pipeline (`citation_verifier_llm.py`)

The effectful collaborators are parameters: the HTTP-fetch-and-parse
collaborator `fetchPage` yields the paragraph texts of the fetched page (or an
error for any exception inside the `try` block of `fetch_article_text`), and
the text-classification backend `llm` yields the generated text (or an error
for any exception inside the `try` block of `identify_source`). -/

structure Page where
  /-- `get_text` of each `<p>` element of the fetched page, in order -/
  paragraphs : List String
deriving DecidableEq, Repr

/-- An ASCII apostrophe (code point 39), used inside the prompt text. -/
def squote : String := String.singleton (Char.ofNat 39)

/-- The fixed instruction of `identify_source`, followed by the article text. -/
def promptFor (text : String) : String :=
  "Identify the news outlet or wire service credited as the original source in the following article. "
  ++ "If there is no explicit attribution to another outlet or wire service, respond with "
  ++ squote ++ "none" ++ squote ++ ". Article: " ++ text

/-- `fetch_article_text`: the space-joined paragraph texts of the fetched
page, stripped; the empty string on any fetch failure. -/
def fetch_article_text (fetchPage : String → Except Unit Page) (url : String) :
    String :=
  match fetchPage url with
  | Except.error _ => ""
  | Except.ok page => pyStrip (String.intercalate " " page.paragraphs)

/-- `identify_source`: `"none"` for empty text, otherwise the first line of the
stripped backend answer, lowercased; `"none"` when the backend call throws. -/
def identify_source (llm : String → Except Unit String) (text : String) :
    String :=
  if text = "" then "none"
  else match llm (promptFor text) with
  | Except.error _ => "none"
  | Except.ok result => pyLower (firstLine (pyStrip result))

/-- One iteration of the classification loop in `main` of
`citation_verifier_llm.py`: an empty citation is `"none"` outright, otherwise
the first (representative) link is fetched and classified. -/
def citationSource (fetchPage : String → Except Unit Page)
    (llm : String → Except Unit String) (citation_links : List String) :
    String :=
  match citation_links with
  | [] => "none"
  | url :: _ => identify_source llm (fetch_article_text fetchPage url)

/-- The full classification loop: one provenance key per citation, in order. -/
def citation_sources_llm (fetchPage : String → Except Unit Page)
    (llm : String → Except Unit String) (citations : List (List String)) :
    List String :=
  citations.map (citationSource fetchPage llm)

/-- The grouping loop of `main`:
`source_map.setdefault(src, []).append(idx)` over
`enumerate(citation_sources, start=1)`. -/
def buildSourceMap (sources : List String) : List (String × List Nat) :=
  (sources.enumFrom 1).foldl (fun m p => alistAppend m p.2 p.1) []

/-- The reported count: `len([s for s in source_map.keys() if s != "none"])`. -/
def uniqueSourceCount (source_map : List (String × List Nat)) : Nat :=
  ((source_map.map Prod.fst).filter (fun s => s ≠ "none")).length

/-- The exact text of the `ImportError` that `load_llm` raises when the
`transformers` import failed, and that `main` prints before returning. -/
def importErrorMsg : String :=
  "transformers library is not installed. Run: pip install transformers torch"

/-- Outcome of `main` of `citation_verifier_llm.py` after citation
extraction: either the early return that prints the `ImportError` text of
`load_llm` (when the `transformers` pipeline is unavailable), or the printed
report. -/
inductive LlmRun where
  | importAbort (msg : String) : LlmRun
  | report (citation_sources : List String)
      (source_map : List (String × List Nat)) (unique_count : Nat) : LlmRun
deriving DecidableEq, Repr

/-- True exactly for the report outcome. -/
def LlmRun.isReport : LlmRun → Bool
  | .report _ _ _ => true
  | _ => false

/-- `main` of `citation_verifier_llm.py` from the point where the citation
list is in hand: `load_llm` is attempted first (its `ImportError` is caught,
printed, and ends the run); only with an available backend does the
classification loop run and the report get printed. -/
def run_semantic (pipelineAvailable : Bool)
    (fetchPage : String → Except Unit Page)
    (llm : String → Except Unit String) (citations : List (List String)) :
    LlmRun :=
  if pipelineAvailable then
    let citation_sources := citation_sources_llm fetchPage llm citations
    let source_map := buildSourceMap citation_sources
    LlmRun.report citation_sources source_map (uniqueSourceCount source_map)
  else LlmRun.importAbort importErrorMsg

/-! ### The classification loop with effectful collaborators

`requests.get` and the transformers pipeline are effectful Python calls: two
invocations with the same argument need not agree.  The state-threaded
embedding below is the same loop as `citation_sources_llm`, with the
collaborator state `σ` passed through each call in program order.  It is used
to settle whether the loop memoizes classification by URL (it performs a fresh
fetch and a fresh backend call per citation). -/

/-- `fetch_article_text` with a state-threaded fetch collaborator. -/
def fetch_article_text_st {σ : Type}
    (fetchPage : σ → String → σ × Except Unit Page) (s : σ) (url : String) :
    σ × String :=
  match fetchPage s url with
  | (s2, Except.error _) => (s2, "")
  | (s2, Except.ok page) => (s2, pyStrip (String.intercalate " " page.paragraphs))

/-- `identify_source` with a state-threaded backend collaborator. -/
def identify_source_st {σ : Type}
    (llm : σ → String → σ × Except Unit String) (s : σ) (text : String) :
    σ × String :=
  if text = "" then (s, "none")
  else match llm s (promptFor text) with
  | (s2, Except.error _) => (s2, "none")
  | (s2, Except.ok result) => (s2, pyLower (firstLine (pyStrip result)))

/-- One iteration of the classification loop, state threaded. -/
def citationSource_st {σ : Type}
    (fetchPage : σ → String → σ × Except Unit Page)
    (llm : σ → String → σ × Except Unit String) (s : σ) :
    List String → σ × String
  | [] => (s, "none")
  | url :: _ =>
    let r := fetch_article_text_st fetchPage s url
    identify_source_st llm r.1 r.2

/-- The classification loop of `main`, state threaded in program order. -/
def citation_sources_llm_st {σ : Type}
    (fetchPage : σ → String → σ × Except Unit Page)
    (llm : σ → String → σ × Except Unit String) :
    σ → List (List String) → σ × List String
  | s, [] => (s, [])
  | s, citation :: rest =>
    let r := citationSource_st fetchPage llm s citation
    let r2 := citation_sources_llm_st fetchPage llm r.1 rest
    (r2.1, r.2 :: r2.2)

/-! ### Helper lemmas: deduplication -/

theorem mem_distinctAux {x : String} : ∀ {seen l : List String},
    x ∈ distinctAux seen l ↔ x ∈ l ∧ ¬ x ∈ seen := by
  intro seen l
  induction l generalizing seen with
  | nil => simp [distinctAux]
  | cons y ys ih =>
    by_cases hy : y ∈ seen
    · rw [distinctAux, if_pos (by simpa using hy), ih]
      constructor
      · rintro ⟨h1, h2⟩; exact ⟨List.mem_cons_of_mem _ h1, h2⟩
      · rintro ⟨h1, h2⟩
        rcases List.mem_cons.mp h1 with rfl | h1
        · exact absurd hy h2
        · exact ⟨h1, h2⟩
    · rw [distinctAux, if_neg (by simpa using hy)]
      simp only [List.mem_cons, ih]
      constructor
      · rintro (rfl | ⟨h1, h2⟩)
        · exact ⟨Or.inl rfl, hy⟩
        · exact ⟨Or.inr h1, fun hx => h2 (Or.inr hx)⟩
      · rintro ⟨rfl | h1, h2⟩
        · exact Or.inl rfl
        · by_cases hxy : x = y
          · exact Or.inl hxy
          · exact Or.inr ⟨h1, fun hx => hx.elim hxy h2⟩

theorem nodup_distinctAux : ∀ {seen l : List String},
    (distinctAux seen l).Nodup := by
  intro seen l
  induction l generalizing seen with
  | nil => simp [distinctAux]
  | cons y ys ih =>
    by_cases hy : y ∈ seen
    · rw [distinctAux, if_pos (by simpa using hy)]; exact ih
    · rw [distinctAux, if_neg (by simpa using hy)]
      refine List.nodup_cons.mpr ⟨fun hmem => ?_, ih⟩
      exact (mem_distinctAux.mp hmem).2 (List.mem_cons_self _ _)

theorem mem_distinctList {x : String} {l : List String} :
    x ∈ distinctList l ↔ x ∈ l := by
  simp [distinctList, mem_distinctAux]

theorem nodup_distinctList {l : List String} : (distinctList l).Nodup :=
  nodup_distinctAux

/-! ### Helper lemmas: insertion-ordered association lists -/

theorem alookup_alistAppend {κ : Type} [DecidableEq κ]
    (m : List (κ × List Nat)) (k k2 : κ) (v : Nat) :
    alookup (alistAppend m k v) k2 =
      if k2 = k then some (((alookup m k).getD []) ++ [v]) else alookup m k2 := by
  induction m with
  | nil =>
    by_cases h : k2 = k
    · subst h; simp [alistAppend, alookup]
    · have h2 : ¬ k = k2 := fun hh => h hh.symm
      simp [alistAppend, alookup, h, h2]
  | cons p rest ih =>
    by_cases hpk : p.1 = k
    · have hstep : alistAppend (p :: rest) k v = (k, p.2 ++ [v]) :: rest := by
        simp [alistAppend, hpk]
      by_cases h : k2 = k
      · subst h
        simp [hstep, alookup, hpk]
      · have h2 : ¬ k = k2 := fun hh => h hh.symm
        have h3 : ¬ p.1 = k2 := hpk ▸ h2
        simp [hstep, alookup, h, h2, h3]
    · have hstep : alistAppend (p :: rest) k v = p :: alistAppend rest k v := by
        simp [alistAppend, hpk]
      by_cases hpk2 : p.1 = k2
      · have h : ¬ k2 = k := fun hh => hpk (hpk2.trans hh)
        simp [hstep, alookup, hpk, hpk2, h]
      · simp [hstep, alookup, hpk, hpk2, ih]

theorem map_fst_alistAppend {κ : Type} [DecidableEq κ]
    (m : List (κ × List Nat)) (k : κ) (v : Nat) :
    (alistAppend m k v).map Prod.fst =
      if k ∈ m.map Prod.fst then m.map Prod.fst else m.map Prod.fst ++ [k] := by
  induction m with
  | nil => simp [alistAppend]
  | cons p rest ih =>
    by_cases hpk : p.1 = k
    · subst hpk
      simp [alistAppend]
    · have hkp : ¬ k = p.1 := fun h => hpk h.symm
      by_cases hk : k ∈ rest.map Prod.fst <;>
        simp [alistAppend, hpk, hk, hkp, ih]

theorem nodup_map_fst_alistAppend {κ : Type} [DecidableEq κ]
    {m : List (κ × List Nat)} {k : κ} {v : Nat}
    (h : (m.map Prod.fst).Nodup) :
    ((alistAppend m k v).map Prod.fst).Nodup := by
  rw [map_fst_alistAppend]
  by_cases hk : k ∈ m.map Prod.fst
  · simpa [hk] using h
  · rw [if_neg hk, List.nodup_append]
    refine ⟨h, List.nodup_singleton k, fun a ha hb => ?_⟩
    rw [List.mem_singleton] at hb
    exact hk (hb ▸ ha)

theorem alookup_cons {κ : Type} [DecidableEq κ] {α : Type}
    (p : κ × α) (rest : List (κ × α)) (k : κ) :
    alookup (p :: rest) k = if p.1 = k then some p.2 else alookup rest k := rfl

theorem alookup_eq_none_iff {κ : Type} [DecidableEq κ] {α : Type}
    {m : List (κ × α)} {k : κ} :
    alookup m k = none ↔ ¬ k ∈ m.map Prod.fst := by
  induction m with
  | nil => simp [alookup]
  | cons p rest ih =>
    by_cases hpk : p.1 = k
    · subst hpk; simp [alookup_cons]
    · have hkp : ¬ k = p.1 := fun h => hpk h.symm
      simp [alookup_cons, hpk, hkp, ih]

theorem mem_of_alookup_eq_some {κ : Type} [DecidableEq κ] {α : Type}
    {m : List (κ × α)} {k : κ} {v : α} :
    alookup m k = some v → (k, v) ∈ m := by
  induction m with
  | nil => intro h; simp [alookup] at h
  | cons p rest ih =>
    intro h
    rw [alookup_cons] at h
    by_cases hpk : p.1 = k
    · rw [if_pos hpk] at h
      obtain rfl : p.2 = v := Option.some.inj h
      have : (k, p.2) = p := by
        calc (k, p.2) = (p.1, p.2) := by rw [hpk]
          _ = p := rfl
      rw [this]
      exact List.mem_cons_self _ _
    · rw [if_neg hpk] at h
      exact List.mem_cons_of_mem _ (ih h)

theorem alookup_of_mem_nodup {κ : Type} [DecidableEq κ] {α : Type}
    {m : List (κ × α)} {k : κ} {v : α}
    (hnd : (m.map Prod.fst).Nodup) (hm : (k, v) ∈ m) :
    alookup m k = some v := by
  induction m with
  | nil => cases hm
  | cons p rest ih =>
    simp only [List.map_cons, List.nodup_cons] at hnd
    rcases List.mem_cons.mp hm with h | h
    · rw [← h, alookup_cons, if_pos rfl]
    · have hpk : ¬ p.1 = k := by
        intro hh
        refine hnd.1 ?_
        rw [hh]
        exact List.mem_map_of_mem Prod.fst h
      rw [alookup_cons, if_neg hpk]
      exact ih hnd.2 h

/-! ### Helper lemmas: the grouping fold -/

theorem alookup_foldl_alistAppend (ks : List String) (hnd : ks.Nodup)
    (m : List (String × List Nat)) (idx : Nat) (k : String) :
    alookup (ks.foldl (fun m2 d => alistAppend m2 d idx) m) k =
      if k ∈ ks then some (((alookup m k).getD []) ++ [idx]) else alookup m k := by
  induction ks generalizing m with
  | nil => simp
  | cons d ks ih =>
    simp only [List.foldl_cons]
    rw [List.nodup_cons] at hnd
    rw [ih hnd.2]
    by_cases hk : k ∈ ks
    · have hkd : ¬ k = d := fun h => hnd.1 (h ▸ hk)
      rw [if_pos hk, if_pos (List.mem_cons_of_mem _ hk),
        alookup_alistAppend, if_neg hkd]
    · by_cases hkd : k = d
      · subst hkd
        rw [if_neg hk, if_pos (List.mem_cons_self _ _),
          alookup_alistAppend, if_pos rfl]
      · rw [if_neg hk, if_neg (by simp [hkd, hk]),
          alookup_alistAppend, if_neg hkd]

theorem nodup_map_fst_foldl_alistAppend (ks : List String)
    (m : List (String × List Nat)) (idx : Nat)
    (h : (m.map Prod.fst).Nodup) :
    ((ks.foldl (fun m2 d => alistAppend m2 d idx) m).map Prod.fst).Nodup := by
  induction ks generalizing m with
  | nil => exact h
  | cons d ks ih => exact ih _ (nodup_map_fst_alistAppend h)

theorem alookup_groupInsert (m : List (String × List Nat))
    (p : Nat × List String) (k : String) :
    alookup (groupInsert m p) k =
      if k ∈ p.2 then some (((alookup m k).getD []) ++ [p.1]) else alookup m k := by
  rw [groupInsert, alookup_foldl_alistAppend _ nodup_distinctList]
  by_cases hk : k ∈ p.2 <;> simp [mem_distinctList, hk]

theorem nodup_map_fst_groupInsert {m : List (String × List Nat)}
    (p : Nat × List String) (h : (m.map Prod.fst).Nodup) :
    ((groupInsert m p).map Prod.fst).Nodup :=
  nodup_map_fst_foldl_alistAppend _ _ _ h

theorem groupOf_cons (p : Nat × List String) (cs : List (Nat × List String))
    (k : String) :
    groupOf (p :: cs) k =
      if k ∈ p.2 then p.1 :: groupOf cs k else groupOf cs k := by
  by_cases hk : k ∈ p.2 <;> simp [groupOf, List.filter_cons, hk]

theorem alookup_foldl_groupInsert (cs : List (Nat × List String))
    (m : List (String × List Nat)) (k : String) :
    alookup (cs.foldl groupInsert m) k =
      if groupOf cs k = [] then alookup m k
      else some (((alookup m k).getD []) ++ groupOf cs k) := by
  induction cs generalizing m with
  | nil => simp [groupOf]
  | cons p cs ih =>
    simp only [List.foldl_cons]
    rw [ih, groupOf_cons]
    by_cases hk : k ∈ p.2
    · rw [if_pos hk]
      by_cases hrest : groupOf cs k = []
      · rw [if_pos hrest, if_neg (by simp), alookup_groupInsert, if_pos hk, hrest]
      · rw [if_neg hrest, if_neg (by simp), alookup_groupInsert, if_pos hk]
        simp
    · rw [if_neg hk, alookup_groupInsert, if_neg hk]

theorem nodup_map_fst_foldl_groupInsert (cs : List (Nat × List String))
    (m : List (String × List Nat)) (h : (m.map Prod.fst).Nodup) :
    ((cs.foldl groupInsert m).map Prod.fst).Nodup := by
  induction cs generalizing m with
  | nil => exact h
  | cons p cs ih => exact ih _ (nodup_map_fst_groupInsert p h)

/-! ### Helper lemmas: structure of `analyze_dependencies` -/

theorem analyze_fst (refs : List (List String)) :
    (analyze_dependencies refs).1 =
      (refs.enumFrom 1).map (fun p => (p.1, p.2.map get_domain)) := rfl

theorem analyze_snd (refs : List (List String)) :
    (analyze_dependencies refs).2 =
      (analyze_dependencies refs).1.foldl groupInsert [] := rfl

theorem analyze_map_fst (refs : List (List String)) :
    (analyze_dependencies refs).1.map Prod.fst = List.range' 1 refs.length := by
  rw [analyze_fst, List.map_map]
  have h : (Prod.fst ∘ fun p : Nat × List String => (p.1, p.2.map get_domain))
      = Prod.fst := rfl
  rw [h, List.enumFrom_map_fst]

theorem analyze_map_snd (refs : List (List String)) :
    (analyze_dependencies refs).1.map Prod.snd
      = refs.map (fun l => l.map get_domain) := by
  rw [analyze_fst, List.map_map]
  have h : (Prod.snd ∘ fun p : Nat × List String => (p.1, p.2.map get_domain))
      = (fun l : List String => l.map get_domain) ∘ Prod.snd := rfl
  rw [h, ← List.map_map, List.enumFrom_map_snd]

theorem analyze_getElem? (refs : List (List String)) (i : Nat) :
    (analyze_dependencies refs).1[i]? =
      refs[i]?.map (fun l => (1 + i, l.map get_domain)) := by
  rw [analyze_fst, List.getElem?_map, List.getElem?_enumFrom]
  cases h : refs[i]? <;> simp

theorem mem_analyze_fst {refs : List (List String)} {l : List String}
    (h : l ∈ refs) :
    ∃ ord, (ord, l.map get_domain) ∈ (analyze_dependencies refs).1 := by
  obtain ⟨i, hi⟩ := List.mem_iff_getElem?.mp h
  have hgot : (analyze_dependencies refs).1[i]? = some (1 + i, l.map get_domain) := by
    rw [analyze_getElem?, hi]
    rfl
  exact ⟨1 + i, List.getElem?_mem hgot⟩

theorem groupOf_eq_nil_iff {cs : List (Nat × List String)} {k : String} :
    groupOf cs k = [] ↔ ∀ p ∈ cs, ¬ k ∈ p.2 := by
  simp [groupOf, List.filter_eq_nil_iff]

theorem alookup_analyze (refs : List (List String)) (k : String) :
    alookup (analyze_dependencies refs).2 k =
      if groupOf (analyze_dependencies refs).1 k = [] then none
      else some (groupOf (analyze_dependencies refs).1 k) := by
  rw [analyze_snd, alookup_foldl_groupInsert]
  by_cases h : groupOf (analyze_dependencies refs).1 k = [] <;>
    simp [h, alookup]

theorem nodup_keys_analyze (refs : List (List String)) :
    ((analyze_dependencies refs).2.map Prod.fst).Nodup := by
  rw [analyze_snd]
  exact nodup_map_fst_foldl_groupInsert _ _ (by simp)

theorem mem_keys_analyze {refs : List (List String)} {k : String} :
    k ∈ (analyze_dependencies refs).2.map Prod.fst ↔
      ∃ p ∈ (analyze_dependencies refs).1, k ∈ p.2 := by
  by_cases hg : groupOf (analyze_dependencies refs).1 k = []
  · have hnone : alookup (analyze_dependencies refs).2 k = none := by
      rw [alookup_analyze, if_pos hg]
    have hnk := alookup_eq_none_iff.mp hnone
    rw [groupOf_eq_nil_iff] at hg
    constructor
    · intro h; exact absurd h hnk
    · rintro ⟨p, hp, hkp⟩; exact absurd hkp (hg p hp)
  · have hsome : alookup (analyze_dependencies refs).2 k ≠ none := by
      rw [alookup_analyze, if_neg hg]; simp
    have hk : k ∈ (analyze_dependencies refs).2.map Prod.fst := by
      by_contra hcon
      exact hsome (alookup_eq_none_iff.mpr hcon)
    rw [groupOf_eq_nil_iff] at hg
    push_neg at hg
    obtain ⟨p, hp, hkp⟩ := hg
    exact ⟨fun _ => ⟨p, hp, hkp⟩, fun _ => hk⟩

theorem groupOf_of_mem_analyze {refs : List (List String)} {k : String}
    {l : List Nat} (h : (k, l) ∈ (analyze_dependencies refs).2) :
    l = groupOf (analyze_dependencies refs).1 k := by
  have hl := alookup_of_mem_nodup (nodup_keys_analyze refs) h
  rw [alookup_analyze] at hl
  by_cases hg : groupOf (analyze_dependencies refs).1 k = []
  · rw [if_pos hg] at hl; cases hl
  · rw [if_neg hg] at hl
    exact (Option.some.inj hl).symm

theorem pairwise_lt_groupOf (refs : List (List String)) (k : String) :
    (groupOf (analyze_dependencies refs).1 k).Pairwise (· < ·) := by
  have h1 : ((analyze_dependencies refs).1.map Prod.fst).Pairwise (· < ·) := by
    rw [analyze_map_fst]
    exact List.pairwise_lt_range' 1 refs.length
  have h2 : (analyze_dependencies refs).1.Pairwise (fun p q => p.1 < q.1) :=
    (List.pairwise_map).mp h1
  exact (List.pairwise_map).mpr
    (List.Pairwise.sublist (List.filter_sublist _) h2)

/-! ### Helper lemmas: small facts -/

theorem length_filterMap_eq_countP {α β : Type} (f : α → Option β)
    (l : List α) :
    (l.filterMap f).length = l.countP (fun a => (f a).isSome) := by
  induction l with
  | nil => rfl
  | cons a l ih =>
    cases h : f a <;>
      simp [List.filterMap_cons, h, List.countP_cons, ih]

theorem pyStartswith_hash {s : String} (h : pyStartswith s "#" = true) :
    ∃ r, s.data = '#' :: r := by
  rw [pyStartswith] at h
  rcases hd : s.data with _ | ⟨c, r⟩
  · rw [hd] at h
    simp [List.isPrefixOf] at h
  · rw [hd] at h
    have hc : ('#' == c) = true := by
      simpa [List.isPrefixOf, show ("#".data : List Char) = ['#'] from rfl] using h
    have hc2 : c = '#' := (beq_iff_eq.mp hc).symm
    refine ⟨r, ?_⟩
    rw [hc2]

theorem ne_empty_of_pyStartswith_hash {s : String}
    (h : pyStartswith s "#" = true) : ¬ s = "" := by
  obtain ⟨r, hr⟩ := pyStartswith_hash h
  intro he
  rw [he] at hr
  cases hr

/-! ### Helper lemmas: `resolveSup` case equations -/

theorem resolveSup_some_hash {article_url : String} {doc : Doc} {href : String}
    (hh : pyStartswith href "#" = true) :
    resolveSup article_url doc (some href) =
      match findById doc (dropFirstChar href) with
      | none => none
      | some footnote =>
        some ((footnote.links.map (fun u => urljoin article_url u)).filter
          (fun fu => pyStartswith fu "http")) := by
  rw [resolveSup, if_neg (ne_empty_of_pyStartswith_hash hh), if_pos hh]

theorem resolveSup_some_direct {article_url : String} {doc : Doc} {href : String}
    (h1 : ¬ href = "") (h2 : pyStartswith href "#" = false) :
    resolveSup article_url doc (some href) = some [urljoin article_url href] := by
  rw [resolveSup, if_neg h1, if_neg (by simp [h2])]

theorem mem_groupOf {cs : List (Nat × List String)} {k : String} {ord : Nat} :
    ord ∈ groupOf cs k ↔ ∃ p ∈ cs, p.1 = ord ∧ k ∈ p.2 := by
  simp only [groupOf, List.mem_map, List.mem_filter, decide_eq_true_eq]
  constructor
  · rintro ⟨p, ⟨hp, hk⟩, hord⟩
    exact ⟨p, hp, hord, hk⟩
  · rintro ⟨p, hp, hord, hk⟩
    exact ⟨p, ⟨hp, hk⟩, hord⟩

/-! ### Claim C1 -/

/-- C1 (corrected): marker resolution numbers its output 1..N strictly
increasing in document order, but N counts only the markers that yield a
citation: a marker with no usable hyperlink, or whose footnote anchor id is
absent, is skipped entirely (it contributes nothing, not an empty-link
citation); only a marker whose footnote is found contributes a citation even
when every link inside is filtered away. -/
theorem citation_ordinals_and_skipped_markers (article_url : String) (doc : Doc) :
    ((analyze_dependencies (extract_citation_links article_url doc)).1.map Prod.fst
        = List.range' 1 (extract_citation_links article_url doc).length)
    ∧ ((extract_citation_links article_url doc).length
        = doc.sups.countP (fun s => (resolveSup article_url doc s).isSome))
    ∧ resolveSup article_url doc none = none
    ∧ (∀ href fn, pyStartswith href "#" = true →
        findById doc (dropFirstChar href) = some fn →
        resolveSup article_url doc (some href)
          = some ((fn.links.map (fun u => urljoin article_url u)).filter
              (fun fu => pyStartswith fu "http")))
    ∧ (∀ href, pyStartswith href "#" = true →
        findById doc (dropFirstChar href) = none →
        resolveSup article_url doc (some href) = none) := by
  refine ⟨analyze_map_fst _, length_filterMap_eq_countP _ _, rfl, ?_, ?_⟩
  · intro href fn h1 h2
    rw [resolveSup_some_hash h1, h2]
  · intro href h1 h2
    rw [resolveSup_some_hash h1, h2]

/-- C1 counterexample: a document with exactly one citation marker whose
anchor points at an absent footnote id produces no citation at all — the
output ordinal list is empty, not `[1]` with an empty-link citation, refuting
the claim that every marker found contributes a citation. -/
theorem marker_with_missing_footnote_yields_no_citation :
    markersFound ⟨[some "#missing"], [], []⟩ = 1
    ∧ extract_citation_links "https://grokipedia.com/page/Example"
        ⟨[some "#missing"], [], []⟩ = []
    ∧ (analyze_dependencies (extract_citation_links
        "https://grokipedia.com/page/Example"
        ⟨[some "#missing"], [], []⟩)).1.map Prod.fst = ([] : List Nat) :=
  ⟨by decide, by decide, by decide⟩

/-- C1 witness: a marker whose footnote exists but holds no links still
contributes an empty-link citation. -/
theorem citation_ordinals_and_skipped_markers_witness :
    resolveSup "https://grokipedia.com/page/Example"
      ⟨[some "#fn1"], [⟨"fn1", []⟩], []⟩ (some "#fn1") = some [] :=
  (citation_ordinals_and_skipped_markers "https://grokipedia.com/page/Example"
      ⟨[some "#fn1"], [⟨"fn1", []⟩], []⟩).2.2.2.1 "#fn1" ⟨"fn1", []⟩
    (by decide) (by decide)

/-! ### Claim C2 -/

/-- C2 (corrected): the grouping is a correct inversion for every ordinal
whose key set is nonempty — the grouping's keys are exactly the keys that
occur in some citation's domain list (no key of any citation is dropped, none
is invented), each group key appears once, each group lists exactly the
ordinals whose domain list contains the key, in strictly increasing
(first-sighting) order — but the union over all groups of the citation
ordinals equals only the set of ordinals with a nonempty key set: an ordinal
whose citation resolved to no links is present in the domain of
CitationSourceMap yet lost by the grouping. -/
theorem grouping_inverts_nonempty_key_sets (refs : List (List String)) :
    (∀ k l, (k, l) ∈ (analyze_dependencies refs).2 →
        ∀ ord, ord ∈ l ↔ ∃ p ∈ (analyze_dependencies refs).1, p.1 = ord ∧ k ∈ p.2)
    ∧ (∀ k, k ∈ (analyze_dependencies refs).2.map Prod.fst ↔
        ∃ p ∈ (analyze_dependencies refs).1, k ∈ p.2)
    ∧ ((analyze_dependencies refs).2.map Prod.fst).Nodup
    ∧ (∀ q ∈ (analyze_dependencies refs).2, q.2.Pairwise (· < ·))
    ∧ (∀ ord, (∃ q ∈ (analyze_dependencies refs).2, ord ∈ q.2) ↔
        ∃ p ∈ (analyze_dependencies refs).1, p.1 = ord ∧ p.2 ≠ []) := by
  refine ⟨?_, fun k => mem_keys_analyze, nodup_keys_analyze refs, ?_, ?_⟩
  · intro k l hkl ord
    rw [groupOf_of_mem_analyze hkl]
    exact mem_groupOf
  · intro q hq
    have hq2 : (q.1, q.2) ∈ (analyze_dependencies refs).2 := by
      rw [Prod.mk.eta]; exact hq
    rw [groupOf_of_mem_analyze hq2]
    exact pairwise_lt_groupOf refs q.1
  · intro ord
    constructor
    · rintro ⟨q, hq, hord⟩
      have hq2 : (q.1, q.2) ∈ (analyze_dependencies refs).2 := by
        rw [Prod.mk.eta]; exact hq
      rw [groupOf_of_mem_analyze hq2] at hord
      obtain ⟨p, hp, hpo, hkp⟩ := mem_groupOf.mp hord
      exact ⟨p, hp, hpo, List.ne_nil_of_mem hkp⟩
    · rintro ⟨p, hp, hpo, hne⟩
      obtain ⟨k, hk⟩ := List.exists_mem_of_ne_nil p.2 hne
      have hkey : k ∈ (analyze_dependencies refs).2.map Prod.fst :=
        mem_keys_analyze.mpr ⟨p, hp, hk⟩
      obtain ⟨q, hq, hqk⟩ := List.mem_map.mp hkey
      refine ⟨q, hq, ?_⟩
      have hq2 : (q.1, q.2) ∈ (analyze_dependencies refs).2 := by
        rw [Prod.mk.eta]; exact hq
      rw [groupOf_of_mem_analyze hq2, hqk]
      exact mem_groupOf.mpr ⟨p, hp, hpo, hk⟩

/-- C2 counterexample: with the single citation `[[]]` (one citation, no
links) the domain of CitationSourceMap is `{1}` while the grouping is empty,
so the union over all groups of citation ordinals does not reproduce the
domain of CitationSourceMap. -/
theorem empty_citation_ordinal_lost_by_grouping :
    (analyze_dependencies ([[]] : List (List String))).1.map Prod.fst = [1]
    ∧ (analyze_dependencies ([[]] : List (List String))).2 = [] :=
  ⟨by decide, by decide⟩

/-- C2 witness: the inversion equivalence at a concrete run. -/
theorem grouping_inverts_nonempty_key_sets_witness :
    (3 : Nat) ∈ [1, 3] ↔
      ∃ p ∈ (analyze_dependencies
        [["http://a.com/x"], ["http://b.com/z"], ["http://a.com/q"]]).1,
        p.1 = 3 ∧ "a.com" ∈ p.2 :=
  (grouping_inverts_nonempty_key_sets
      [["http://a.com/x"], ["http://b.com/z"], ["http://a.com/q"]]).1
    "a.com" [1, 3] (by decide) 3

/-! ### Helper lemmas: generic grouping folds and `buildSourceMap` -/

theorem alookup_foldl_groupInsert_nil (cs : List (Nat × List String))
    (k : String) :
    alookup (cs.foldl groupInsert []) k =
      if groupOf cs k = [] then none else some (groupOf cs k) := by
  rw [alookup_foldl_groupInsert]
  by_cases h : groupOf cs k = [] <;> simp [h, alookup]

theorem nodup_keys_foldl_groupInsert (cs : List (Nat × List String)) :
    ((cs.foldl groupInsert []).map Prod.fst).Nodup :=
  nodup_map_fst_foldl_groupInsert _ _ (by simp)

theorem mem_keys_foldl_groupInsert {cs : List (Nat × List String)} {k : String} :
    k ∈ (cs.foldl groupInsert []).map Prod.fst ↔ ∃ p ∈ cs, k ∈ p.2 := by
  by_cases hg : groupOf cs k = []
  · have hnone : alookup (cs.foldl groupInsert []) k = none := by
      rw [alookup_foldl_groupInsert_nil, if_pos hg]
    have hnk := alookup_eq_none_iff.mp hnone
    rw [groupOf_eq_nil_iff] at hg
    constructor
    · intro h; exact absurd h hnk
    · rintro ⟨p, hp, hkp⟩; exact absurd hkp (hg p hp)
  · have hsome : alookup (cs.foldl groupInsert []) k ≠ none := by
      rw [alookup_foldl_groupInsert_nil, if_neg hg]; simp
    have hk : k ∈ (cs.foldl groupInsert []).map Prod.fst := by
      by_contra hcon
      exact hsome (alookup_eq_none_iff.mpr hcon)
    rw [groupOf_eq_nil_iff] at hg
    push_neg at hg
    obtain ⟨p, hp, hkp⟩ := hg
    exact ⟨fun _ => ⟨p, hp, hkp⟩, fun _ => hk⟩

theorem buildSourceMap_eq_foldl (sources : List String) :
    buildSourceMap sources =
      ((sources.enumFrom 1).map (fun p => (p.1, [p.2]))).foldl groupInsert [] := by
  rw [buildSourceMap, List.foldl_map]
  rfl

theorem mem_keys_buildSourceMap {sources : List String} {k : String} :
    k ∈ (buildSourceMap sources).map Prod.fst ↔ k ∈ sources := by
  rw [buildSourceMap_eq_foldl, mem_keys_foldl_groupInsert]
  constructor
  · rintro ⟨p, hp, hk⟩
    obtain ⟨q, hq, rfl⟩ := List.mem_map.mp hp
    have hk2 : k = q.2 := by simpa using hk
    rw [hk2]
    have hmem : q.2 ∈ (sources.enumFrom 1).map Prod.snd :=
      List.mem_map_of_mem _ hq
    rwa [List.enumFrom_map_snd] at hmem
  · intro hk
    obtain ⟨i, hi⟩ := List.mem_iff_getElem?.mp hk
    have hq : (sources.enumFrom 1)[i]? = some (1 + i, k) := by
      rw [List.getElem?_enumFrom, hi]
      rfl
    exact ⟨(1 + i, [k]), List.mem_map_of_mem _ (List.getElem?_mem hq), by simp⟩

theorem nodup_keys_buildSourceMap (sources : List String) :
    ((buildSourceMap sources).map Prod.fst).Nodup := by
  rw [buildSourceMap_eq_foldl]
  exact nodup_keys_foldl_groupInsert _

/-! ### Claim C4 -/

/-- C4 (corrected): the domain classification stored per citation is the LIST
of the domains of its URLs, one entry per link with multiplicity preserved —
CitationSourceMap is not duplicate-free; deduplication happens only later,
when the grouping loop iterates over the set of one citation's domains. -/
theorem citation_source_map_keeps_duplicate_domains (refs : List (List String))
    (i : Nat) (links : List String) (h : refs[i]? = some links) :
    (analyze_dependencies refs).1[i]? = some (1 + i, links.map get_domain) := by
  rw [analyze_getElem?, h]
  rfl

/-- C4 counterexample: a citation with two links on one domain is mapped to
`["a.com", "a.com"]`, which is not a duplicate-free set. -/
theorem duplicate_domains_preserved_in_source_map :
    (analyze_dependencies [["http://a.com/x", "http://a.com/y"]]).1
      = [(1, ["a.com", "a.com"])]
    ∧ ¬ (["a.com", "a.com"] : List String).Nodup :=
  ⟨by decide, by decide⟩

/-- C4 witness: the per-ordinal value at a concrete run. -/
theorem citation_source_map_keeps_duplicate_domains_witness :
    (analyze_dependencies [["http://a.com/x", "http://a.com/y"]]).1[0]?
      = some (1, ["a.com", "a.com"]) :=
  citation_source_map_keeps_duplicate_domains
    [["http://a.com/x", "http://a.com/y"]] 0 ["http://a.com/x", "http://a.com/y"] rfl

/-! ### Claim C8 -/

/-- C8 (confirmed): the reported count of the domain pipeline is
`len(domain_to_citations)`, the number of distinct domains produced across all
citations (every produced key counted); the reported count of the semantic
pipeline is the number of distinct keys with the `"none"` sentinel excluded. -/
theorem distinct_source_counts (refs : List (List String))
    (sources : List String) :
    ((analyze_dependencies refs).2.length
        = ((refs.map (fun l => l.map get_domain)).flatten).toFinset.card)
    ∧ (uniqueSourceCount (buildSourceMap sources)
        = (sources.toFinset.erase "none").card) := by
  constructor
  · have hnd := nodup_keys_analyze refs
    have hlen : (analyze_dependencies refs).2.length
        = ((analyze_dependencies refs).2.map Prod.fst).length :=
      (List.length_map _ _).symm
    rw [hlen, ← List.toFinset_card_of_nodup hnd]
    congr 1
    apply Finset.ext
    intro x
    simp only [List.mem_toFinset, mem_keys_analyze, List.mem_flatten]
    constructor
    · rintro ⟨p, hp, hx⟩
      refine ⟨p.2, ?_, hx⟩
      have hmem : p.2 ∈ (analyze_dependencies refs).1.map Prod.snd :=
        List.mem_map_of_mem _ hp
      rwa [analyze_map_snd] at hmem
    · rintro ⟨l, hl, hx⟩
      rw [← analyze_map_snd] at hl
      obtain ⟨p, hp, hpl⟩ := List.mem_map.mp hl
      exact ⟨p, hp, hpl ▸ hx⟩
  · have hnd := nodup_keys_buildSourceMap sources
    have hndf : (((buildSourceMap sources).map Prod.fst).filter
        (fun s => s ≠ "none")).Nodup := List.Nodup.filter _ hnd
    rw [uniqueSourceCount, ← List.toFinset_card_of_nodup hndf]
    congr 1
    apply Finset.ext
    intro x
    simp only [List.mem_toFinset, List.mem_filter, mem_keys_buildSourceMap,
      Finset.mem_erase, decide_eq_true_eq]
    exact ⟨fun h => ⟨h.2, h.1⟩, fun h => ⟨h.2, h.1⟩⟩

/-! ### Claim C3 -/

/-- C3 (corrected): inside a footnote block a joined link is kept iff the
joined URL starts with the literal text `http` — `https` passes, but so does
any other scheme beginning with `http` (for example `httpx`) — and a direct
external marker target is kept with no scheme filtering at all; neither branch
enforces the spec predicate scheme-is-http-or-https. -/
theorem kept_links_filter_is_textual_http (article_url : String) (doc : Doc) :
    (∀ href links, pyStartswith href "#" = true →
        resolveSup article_url doc (some href) = some links →
        ∀ u ∈ links, pyStartswith u "http" = true)
    ∧ (∀ href, ¬ href = "" → pyStartswith href "#" = false →
        resolveSup article_url doc (some href)
          = some [urljoin article_url href]) := by
  constructor
  · intro href links h1 h2 u hu
    rw [resolveSup_some_hash h1] at h2
    cases hfb : findById doc (dropFirstChar href) with
    | none => rw [hfb] at h2; cases h2
    | some fn =>
      rw [hfb] at h2
      obtain rfl := Option.some.inj h2
      exact (List.mem_filter.mp hu).2
  · intro href h1 h2
    exact resolveSup_some_direct h1 h2

/-- C3 counterexample: with article URL `https://grokipedia.com/page/X`, a
direct marker target `ftp://example.com/file` is kept with no filtering and a
footnote link `httpx://evil.example/x` passes the textual filter; neither kept
URL has scheme `http` or `https`. -/
theorem non_http_schemes_survive_resolution :
    extract_citation_links "https://grokipedia.com/page/X"
      ⟨[some "ftp://example.com/file", some "#fn1"],
        [⟨"fn1", ["httpx://evil.example/x"]⟩], []⟩
      = [["ftp://example.com/file"], ["httpx://evil.example/x"]]
    ∧ schemeIsHttpOrHttps "ftp://example.com/file" = false
    ∧ schemeIsHttpOrHttps "httpx://evil.example/x" = false :=
  ⟨by decide, by decide, by decide⟩

/-- C3 witness: the unfiltered direct branch at a concrete input. -/
theorem kept_links_filter_is_textual_http_witness :
    resolveSup "https://grokipedia.com/page/X" ⟨[], [], []⟩
      (some "ftp://example.com/file") = some ["ftp://example.com/file"] :=
  (kept_links_filter_is_textual_http "https://grokipedia.com/page/X"
      ⟨[], [], []⟩).2 "ftp://example.com/file" (by decide) (by decide)

/-! ### Claim C5 -/

/-- Unfolding equation of the semantic-pipeline extractor. -/
theorem extract_citation_links_llm_eq (article_url : String) (doc : Doc) :
    extract_citation_links_llm article_url doc =
      if doc.sups.filterMap (resolveSup article_url doc) = [] then
        ((doc.allLinks.map (fun u => urljoin article_url u)).filter
          (fun fu => pyStartswith fu "http")).map (fun u => [u])
      else doc.sups.filterMap (resolveSup article_url doc) := rfl

/-- C5 (corrected): the whole-document fallback triggers exactly when the
marker walk appends no citation — when every marker is skipped (no usable
hyperlink, or missing footnote anchor) or there are no markers at all — and
not exactly when zero markers are found; a single marker that resolves (even
to an empty link list) suppresses it.  When it triggers, the output is one
singleton pseudo-citation per kept document-wide hyperlink. -/
theorem fallback_trigger_condition (article_url : String) (doc : Doc) :
    ((doc.sups.filterMap (resolveSup article_url doc) = []) ↔
        ∀ s ∈ doc.sups, resolveSup article_url doc s = none)
    ∧ (doc.sups.filterMap (resolveSup article_url doc) ≠ [] →
        extract_citation_links_llm article_url doc
          = doc.sups.filterMap (resolveSup article_url doc))
    ∧ (doc.sups.filterMap (resolveSup article_url doc) = [] →
        extract_citation_links_llm article_url doc
          = ((doc.allLinks.map (fun u => urljoin article_url u)).filter
              (fun fu => pyStartswith fu "http")).map (fun u => [u])) := by
  refine ⟨List.filterMap_eq_nil_iff, ?_, ?_⟩
  · intro h
    rw [extract_citation_links_llm_eq, if_neg h]
  · intro h
    rw [extract_citation_links_llm_eq, if_pos h]

/-- C5 counterexample: a document with one citation marker (a `<sup>` whose
hyperlink is `#missing`) whose footnote id is absent: one marker is found, yet
the marker walk yields nothing and the whole-document fallback fires —
refuting the claim that the fallback triggers exactly when zero markers are
found in the document. -/
theorem fallback_fires_despite_a_marker :
    markersFound ⟨[some "#missing"], [], ["http://x.com/a"]⟩ = 1
    ∧ extract_citation_links_llm "https://grokipedia.com/page/Example"
        ⟨[some "#missing"], [], ["http://x.com/a"]⟩ = [["http://x.com/a"]]
    ∧ (⟨[some "#missing"], [], ["http://x.com/a"]⟩ : Doc).sups.filterMap
        (resolveSup "https://grokipedia.com/page/Example"
          ⟨[some "#missing"], [], ["http://x.com/a"]⟩) = [] :=
  ⟨by decide, by decide, by decide⟩

/-- C5 witness: the fallback output at a concrete input with no markers. -/
theorem fallback_trigger_condition_witness :
    extract_citation_links_llm "https://grokipedia.com/page/Example"
      ⟨[], [], ["http://x.com/a", "mailto:someone"]⟩ = [["http://x.com/a"]] :=
  (fallback_trigger_condition "https://grokipedia.com/page/Example"
      ⟨[], [], ["http://x.com/a", "mailto:someone"]⟩).2.2 (by decide)

/-! ### Claim C6 -/

theorem citationSource_cons (fetchPage : String → Except Unit Page)
    (llm : String → Except Unit String) (url : String) (rest : List String) :
    citationSource fetchPage llm (url :: rest)
      = identify_source llm (fetch_article_text fetchPage url) := rfl

theorem citationSource_head (fetchPage : String → Except Unit Page)
    (llm : String → Except Unit String) (c : List String) :
    citationSource fetchPage llm c =
      match c.head? with
      | none => "none"
      | some url => identify_source llm (fetch_article_text fetchPage url) := by
  cases c <;> rfl

/-- C6 (confirmed): a failed fetch of the representative URL yields the empty
text; empty text or a throwing backend call yields the `"none"` sentinel; and
the classification loop is total — it returns one key per citation, each
computed from that citation alone, so no per-citation failure propagates or
aborts the processing of the remaining citations. -/
theorem per_citation_failures_degrade_to_none
    (fetchPage : String → Except Unit Page)
    (llm : String → Except Unit String)
    (citations : List (List String)) :
    (∀ url, fetchPage url = Except.error () →
        fetch_article_text fetchPage url = "")
    ∧ identify_source llm "" = "none"
    ∧ (∀ text, ¬ text = "" → llm (promptFor text) = Except.error () →
        identify_source llm text = "none")
    ∧ (citation_sources_llm fetchPage llm citations).length = citations.length
    ∧ (∀ (i : Nat) (c : List String), citations[i]? = some c →
        (citation_sources_llm fetchPage llm citations)[i]?
          = some (citationSource fetchPage llm c))
    ∧ (∀ (i : Nat) (url : String) (rest : List String),
        citations[i]? = some (url :: rest) →
        fetchPage url = Except.error () →
        (citation_sources_llm fetchPage llm citations)[i]? = some "none") := by
  refine ⟨?_, rfl, ?_, List.length_map _ _, ?_, ?_⟩
  · intro url h
    rw [fetch_article_text, h]
  · intro text h1 h2
    rw [identify_source, if_neg h1, h2]
  · intro i c h
    rw [citation_sources_llm, List.getElem?_map, h]
    rfl
  · intro i url rest h1 h2
    rw [citation_sources_llm, List.getElem?_map, h1, Option.map_some',
      citationSource_cons]
    have hf : fetch_article_text fetchPage url = "" := by
      rw [fetch_article_text, h2]
    rw [hf]
    rfl

/-- C6 witness: a failing fetch at a concrete run leaves the citation with the
`"none"` key. -/
theorem per_citation_failures_degrade_to_none_witness :
    (citation_sources_llm (fun _ => Except.error ()) (fun _ => Except.error ())
      [["http://a.com/x"]])[0]? = some "none" :=
  (per_citation_failures_degrade_to_none (fun _ => Except.error ())
      (fun _ => Except.error ()) [["http://a.com/x"]]).2.2.2.2.2
    0 "http://a.com/x" [] rfl rfl

/-! ### Claim C7 -/

/-- C7 (corrected): with the transformers pipeline unavailable, `load_llm`
raises `ImportError`, `main` catches it, prints its message once and returns:
the run stops before the classification loop, so no citation receives any
provenance key (not even the `"none"` sentinel) and no report is produced.
The unavailability is surfaced exactly once and nothing crashes, but the run
does not continue as the claim states. -/
theorem unavailable_backend_aborts_run
    (fetchPage : String → Except Unit Page)
    (llm : String → Except Unit String)
    (citations : List (List String)) :
    run_semantic false fetchPage llm citations
      = LlmRun.importAbort importErrorMsg := rfl

/-- C7 counterexample: with the backend unavailable and one citation in hand,
the outcome of `main` is the printed `ImportError` and an early return — not a
report in which the citation carries the `"none"` key. -/
theorem no_report_when_backend_unavailable :
    (run_semantic false (fun _ => Except.error ()) (fun _ => Except.error ())
        [["http://a.com/x"]]).isReport = false
    ∧ run_semantic false (fun _ => Except.error ()) (fun _ => Except.error ())
        [["http://a.com/x"]] = LlmRun.importAbort importErrorMsg :=
  ⟨rfl, rfl⟩

/-! ### Claim C9 -/

/-- A fetch collaborator for the C9 counterexample: every fetch succeeds with
one fixed paragraph of attribution text; the call counter is unchanged. -/
def cexFetch : Nat → String → Nat × Except Unit Page :=
  fun s _ => (s, Except.ok ⟨["According to Reuters, things happened."]⟩)

/-- A classification backend for the C9 counterexample whose answer depends on
how often it has been called (as a real generation backend may): first
`Reuters`, afterwards `AP`. -/
def cexLlm : Nat → String → Nat × Except Unit String :=
  fun s _ => (s + 1, Except.ok (if s = 0 then "Reuters" else "AP"))

/-- C9 (corrected): the domain classifier is a pure function of the citation
— equal link lists at any two ordinals yield equal domain lists — and with
pure (stateless) collaborators the semantic loop gives citations with equal
representative URLs equal keys; but the loop performs no caching or
memoization by URL, so the per-URL consistency holds only as far as the
injected collaborators are themselves deterministic. -/
theorem classification_deterministic_only_with_pure_collaborators
    (fetchPage : String → Except Unit Page)
    (llm : String → Except Unit String)
    (citations : List (List String)) (refs : List (List String)) :
    (∀ (i j : Nat) (li lj : List String),
        refs[i]? = some li → refs[j]? = some lj → li = lj →
        ((analyze_dependencies refs).1[i]?).map Prod.snd
          = ((analyze_dependencies refs).1[j]?).map Prod.snd)
    ∧ (∀ (i j : Nat) (ci cj : List String),
        citations[i]? = some ci → citations[j]? = some cj →
        ci.head? = cj.head? →
        (citation_sources_llm fetchPage llm citations)[i]?
          = (citation_sources_llm fetchPage llm citations)[j]?) := by
  constructor
  · intro i j li lj hi hj hij
    rw [analyze_getElem?, analyze_getElem?, hi, hj, hij]
    rfl
  · intro i j ci cj hi hj hhead
    rw [citation_sources_llm, List.getElem?_map, List.getElem?_map, hi, hj,
      Option.map_some', Option.map_some', citationSource_head,
      citationSource_head, hhead]

/-- C9 counterexample: in the state-threaded loop (the collaborators are
effectful Python calls), two citations with the same representative URL
receive different keys in one run — nothing is cached or memoized by URL. -/
theorem same_url_classified_twice_differently :
    (citation_sources_llm_st cexFetch cexLlm 0
        [["http://a.com/x"], ["http://a.com/x"]]).2 = ["reuters", "ap"]
    ∧ ¬ ("reuters" : String) = "ap" :=
  ⟨by decide, by decide⟩

/-- C9 witness: with pure collaborators, equal representative URLs at two
ordinals receive equal keys. -/
theorem classification_deterministic_witness :
    (citation_sources_llm (fun _ => Except.error ()) (fun _ => Except.error ())
        [["http://a.com/x"], ["http://a.com/x"]])[0]?
      = (citation_sources_llm (fun _ => Except.error ())
        (fun _ => Except.error ())
        [["http://a.com/x"], ["http://a.com/x"]])[1]? :=
  (classification_deterministic_only_with_pure_collaborators
      (fun _ => Except.error ()) (fun _ => Except.error ())
      [["http://a.com/x"], ["http://a.com/x"]] []).2
    0 1 ["http://a.com/x"] ["http://a.com/x"] rfl rfl rfl

/-! ### Helper lemmas: URL components under fragment appending (for C10) -/

theorem takeWhile_append_stop {α : Type} {p : α → Bool} {x : α}
    (hx : p x = false) : ∀ (xs ys : List α),
    (xs ++ x :: ys).takeWhile p = xs.takeWhile p := by
  intro xs ys
  induction xs with
  | nil =>
    simp only [List.nil_append, List.takeWhile_nil]
    exact List.takeWhile_cons_of_neg (by simp [hx])
  | cons a as ih =>
    by_cases ha : p a = true
    · simp only [List.cons_append, List.takeWhile_cons_of_pos ha, ih]
    · have ha2 : ¬ p a = true := ha
      simp only [List.cons_append, List.takeWhile_cons_of_neg ha2,
        List.takeWhile_cons_of_neg ha2]

theorem dropWhile_append_eq_cons {α : Type} {p : α → Bool} :
    ∀ {xs : List α} {c : α} {cs ys : List α},
    xs.dropWhile p = c :: cs → (xs ++ ys).dropWhile p = c :: (cs ++ ys) := by
  intro xs
  induction xs with
  | nil => intro c cs ys h; cases h
  | cons a as ih =>
    intro c cs ys h
    by_cases ha : p a = true
    · rw [List.dropWhile_cons_of_pos ha] at h
      rw [List.cons_append, List.dropWhile_cons_of_pos ha]
      exact ih h
    · rw [List.dropWhile_cons_of_neg ha] at h
      injection h with h1 h2
      rw [List.cons_append, List.dropWhile_cons_of_neg ha, h1, h2]

theorem takeWhile_append_of_dropWhile_cons {α : Type} {p : α → Bool}
    {xs : List α} {c : α} {cs : List α}
    (h : xs.dropWhile p = c :: cs) (ys : List α) :
    (xs ++ ys).takeWhile p = xs.takeWhile p := by
  induction xs with
  | nil => cases h
  | cons a as ih =>
    by_cases ha : p a = true
    · rw [List.dropWhile_cons_of_pos ha] at h
      rw [List.cons_append, List.takeWhile_cons_of_pos ha,
        List.takeWhile_cons_of_pos ha, ih h]
    · rw [List.cons_append, List.takeWhile_cons_of_neg ha,
        List.takeWhile_cons_of_neg ha]

theorem dropWhile_append_of_nil {α : Type} {p : α → Bool} :
    ∀ {xs ys : List α}, xs.dropWhile p = [] →
    (xs ++ ys).dropWhile p = ys.dropWhile p := by
  intro xs
  induction xs with
  | nil => intro ys _; rfl
  | cons a as ih =>
    intro ys h
    by_cases ha : p a = true
    · rw [List.dropWhile_cons_of_pos ha] at h
      rw [List.cons_append, List.dropWhile_cons_of_pos ha]
      exact ih h
    · rw [List.dropWhile_cons_of_neg ha] at h
      cases h

theorem splitScheme_append_hash (a rest : List Char) :
    splitScheme (a ++ '#' :: rest)
      = (splitScheme a).map (fun p => (p.1, p.2 ++ '#' :: rest)) := by
  have hns : isSchemeChar '#' = false := by decide
  cases hd : a.dropWhile isSchemeChar with
  | nil =>
    have h2 : (a ++ '#' :: rest).dropWhile isSchemeChar = '#' :: rest := by
      rw [dropWhile_append_of_nil hd]
      exact List.dropWhile_cons_of_neg (by simp [hns])
    rw [splitScheme, splitScheme, hd, h2]
    simp [show ¬ ('#' = ':') from by decide]
  | cons c cs =>
    have h2 : (a ++ '#' :: rest).dropWhile isSchemeChar
        = c :: (cs ++ '#' :: rest) := dropWhile_append_eq_cons hd
    have h3 : (a ++ '#' :: rest).takeWhile isSchemeChar
        = a.takeWhile isSchemeChar := takeWhile_append_of_dropWhile_cons hd _
    rw [splitScheme, splitScheme, hd, h2, h3]
    by_cases hc : c = ':'
    · by_cases ht : a.takeWhile isSchemeChar = []
      · simp [hc, ht]
      · simp [hc, ht]
    · simp [hc]

theorem nlTail_append_hash (xs ys : List Char) :
    nlTail (xs ++ '#' :: ys) = nlTail xs := by
  have hnd : notUrlDelim '#' = false := by decide
  match xs with
  | [] =>
    cases ys with
    | nil => rfl
    | cons y t =>
      show nlTail ('#' :: y :: t) = []
      rw [nlTail]
      rw [if_neg (by simp [show ¬ (('#' : Char) = '/') from by decide])]
  | [c] =>
    show nlTail (c :: '#' :: ys) = nlTail [c]
    rw [nlTail]
    rw [if_neg (by simp [show ¬ (('#' : Char) = '/') from by decide])]
    rfl
  | c1 :: c2 :: t =>
    show nlTail (c1 :: c2 :: (t ++ '#' :: ys)) = nlTail (c1 :: c2 :: t)
    rw [nlTail, nlTail]
    by_cases h : c1 = '/' ∧ c2 = '/'
    · rw [if_pos h, if_pos h]
      exact takeWhile_append_stop hnd t ys
    · rw [if_neg h, if_neg h]

theorem netlocChars_append_hash (a rest : List Char) :
    netlocChars (a ++ '#' :: rest) = netlocChars a := by
  rw [netlocChars, netlocChars, restAfterScheme, restAfterScheme,
    splitScheme_append_hash]
  cases h : splitScheme a with
  | none => simp only [Option.map_none']; exact nlTail_append_hash a rest
  | some p => simp only [Option.map_some']; exact nlTail_append_hash p.2 rest

theorem dropWhile_head_false {α : Type} {p : α → Bool} :
    ∀ {l : List α} {x : α} {t : List α}, l.dropWhile p = x :: t → p x = false := by
  intro l
  induction l with
  | nil => intro x t h; cases h
  | cons a as ih =>
    intro x t h
    by_cases ha : p a = true
    · rw [List.dropWhile_cons_of_pos ha] at h
      exact ih h
    · rw [List.dropWhile_cons_of_neg ha] at h
      injection h with h1 _
      rw [← h1]
      exact Bool.not_eq_true _ ▸ eq_false_of_ne_true ha

theorem netlocChars_stripFragment_append_hash (l : List Char) (rest : List Char) :
    netlocChars (l.takeWhile (fun c => c ≠ '#') ++ '#' :: rest)
      = netlocChars l := by
  rw [netlocChars_append_hash]
  cases hd : l.dropWhile (fun c => (c ≠ '#' : Bool)) with
  | nil =>
    have hl : l.takeWhile (fun c => (c ≠ '#' : Bool)) = l := by
      have := List.takeWhile_append_dropWhile (fun c => (c ≠ '#' : Bool)) l
      rw [hd, List.append_nil] at this
      exact this
    rw [hl]
  | cons x t =>
    have hx : x = '#' := by
      have := dropWhile_head_false hd
      simpa using this
    have hl : l = l.takeWhile (fun c => (c ≠ '#' : Bool)) ++ '#' :: t := by
      have := List.takeWhile_append_dropWhile (fun c => (c ≠ '#' : Bool)) l
      rw [hd, hx] at this
      exact this.symm
    conv_rhs => rw [hl]
    rw [netlocChars_append_hash]

theorem isPrefixOf_iff_exists_append {p l : List Char} :
    p.isPrefixOf l = true ↔ ∃ t, l = p ++ t := by
  induction p generalizing l with
  | nil =>
    simp [List.isPrefixOf]
  | cons a as ih =>
    cases l with
    | nil =>
      simp [List.isPrefixOf]
    | cons b bs =>
      rw [show (a :: as).isPrefixOf (b :: bs) = (a == b && as.isPrefixOf bs)
        from rfl]
      simp only [Bool.and_eq_true, beq_iff_eq, ih, List.cons_append]
      constructor
      · rintro ⟨rfl, t, rfl⟩
        exact ⟨t, rfl⟩
      · rintro ⟨t, ht⟩
        injection ht with h1 h2
        exact ⟨h1.symm, t, h2⟩

theorem takeWhile_append_all {α : Type} {p : α → Bool} :
    ∀ {xs : List α} (ys : List α), (∀ c ∈ xs, p c = true) →
    (xs ++ ys).takeWhile p = xs ++ ys.takeWhile p := by
  intro xs
  induction xs with
  | nil => intro ys _; rfl
  | cons a as ih =>
    intro ys h
    have ha : p a = true := h a (List.mem_cons_self _ _)
    rw [List.cons_append, List.takeWhile_cons_of_pos ha,
      ih ys (fun c hc => h c (List.mem_cons_of_mem _ hc)), List.cons_append]

theorem get_domain_stripFragment_append_hash (base fragHref : String)
    (hf : pyStartswith fragHref "#" = true) :
    get_domain (stripFragment base ++ fragHref) = get_domain base := by
  obtain ⟨r, hr⟩ := pyStartswith_hash hf
  rw [get_domain, get_domain]
  have hdata : (stripFragment base ++ fragHref).data
      = base.data.takeWhile (fun c => c ≠ '#') ++ '#' :: r := by
    rw [String.data_append, hr]
    rfl
  rw [hdata, netlocChars_stripFragment_append_hash]

theorem pyStartswith_http_stripFragment_append {base frag : String}
    (h : pyStartswith base "http" = true) :
    pyStartswith (stripFragment base ++ frag) "http" = true := by
  rw [pyStartswith] at h
  obtain ⟨t, ht⟩ := isPrefixOf_iff_exists_append.mp h
  rw [pyStartswith]
  apply isPrefixOf_iff_exists_append.mpr
  have hall : ∀ c ∈ "http".data, ((c ≠ '#') : Bool) = true := by decide
  have hdata : (stripFragment base ++ frag).data
      = "http".data ++ (t.takeWhile (fun c => c ≠ '#') ++ frag.data) := by
    rw [String.data_append]
    have hsf : (stripFragment base).data
        = base.data.takeWhile (fun c => c ≠ '#') := rfl
    rw [hsf, ht, takeWhile_append_all _ hall, List.append_assoc]
  exact ⟨_, hdata⟩

theorem urljoin_hash {base url : String} (hb : ¬ base = "")
    (hu : pyStartswith url "#" = true) :
    urljoin base url = stripFragment base ++ url := by
  obtain ⟨r, hr⟩ := pyStartswith_hash hu
  have hne : ¬ url = "" := ne_empty_of_pyStartswith_hash hu
  have hss : splitScheme url.data = none := by
    rw [hr, splitScheme]
    have hd : List.dropWhile isSchemeChar ('#' :: r) = '#' :: r :=
      List.dropWhile_cons_of_neg
        (by simp [show isSchemeChar '#' = false from by decide])
    rw [hd]
    simp [show ¬ (('#' : Char) = ':') from by decide]
  rw [urljoin, if_neg hb, if_neg hne, hss]
  simp [hu]

/-! ### Claim C10 -/

/-- C10 (confirmed): a footnote block containing an intra-document fragment
hyperlink (for example a back-reference `#cite_ref-...`) resolves it by
joining against the article URL, yielding the article URL (its fragment
replaced) — an absolute URL that starts with `http` whenever the article URL
does, so it passes the link filter and is kept in the citation.  Its domain
equals the article domain, so the article domain enters that citation's
ProvenanceKeys and appears among the grouping keys, inflating the
distinct-source count. -/
theorem fragment_backref_counts_article_domain
    (article_url supH fragHref : String) (doc : Doc) (fn : Footnote)
    (hbase : ¬ article_url = "")
    (hhttp : pyStartswith article_url "http" = true)
    (hsup : (some supH) ∈ doc.sups)
    (hsh : pyStartswith supH "#" = true)
    (hfind : findById doc (dropFirstChar supH) = some fn)
    (hfrag : fragHref ∈ fn.links)
    (hfh : pyStartswith fragHref "#" = true) :
    urljoin article_url fragHref = stripFragment article_url ++ fragHref
    ∧ pyStartswith (stripFragment article_url ++ fragHref) "http" = true
    ∧ (∃ links, links ∈ extract_citation_links article_url doc
        ∧ resolveSup article_url doc (some supH) = some links
        ∧ (stripFragment article_url ++ fragHref) ∈ links)
    ∧ get_domain (stripFragment article_url ++ fragHref)
        = get_domain article_url
    ∧ get_domain article_url
        ∈ ((analyze_dependencies
            (extract_citation_links article_url doc)).2).map Prod.fst := by
  have hjoin : urljoin article_url fragHref
      = stripFragment article_url ++ fragHref := urljoin_hash hbase hfh
  have hpre : pyStartswith (stripFragment article_url ++ fragHref) "http"
      = true := pyStartswith_http_stripFragment_append hhttp
  have hdom : get_domain (stripFragment article_url ++ fragHref)
      = get_domain article_url :=
    get_domain_stripFragment_append_hash article_url fragHref hfh
  have hres : resolveSup article_url doc (some supH)
      = some ((fn.links.map (fun u => urljoin article_url u)).filter
          (fun fu => pyStartswith fu "http")) := by
    rw [resolveSup_some_hash hsh, hfind]
  have hmem : (stripFragment article_url ++ fragHref)
      ∈ (fn.links.map (fun u => urljoin article_url u)).filter
          (fun fu => pyStartswith fu "http") := by
    apply List.mem_filter.mpr
    refine ⟨?_, hpre⟩
    rw [← hjoin]
    exact List.mem_map_of_mem _ hfrag
  have hextr : (fn.links.map (fun u => urljoin article_url u)).filter
      (fun fu => pyStartswith fu "http") ∈ extract_citation_links article_url doc :=
    List.mem_filterMap.mpr ⟨some supH, hsup, hres⟩
  refine ⟨hjoin, hpre, ⟨_, hextr, hres, hmem⟩, hdom, ?_⟩
  apply mem_keys_analyze.mpr
  obtain ⟨ord, hord⟩ := mem_analyze_fst hextr
  refine ⟨(ord, ((fn.links.map (fun u => urljoin article_url u)).filter
      (fun fu => pyStartswith fu "http")).map get_domain), hord, ?_⟩
  rw [← hdom]
  exact List.mem_map_of_mem _ hmem

/-- C10 witness: a concrete document whose only footnote holds a
back-reference fragment link and one external link; the article domain
appears among the grouping keys. -/
theorem fragment_backref_counts_article_domain_witness :
    get_domain "https://grokipedia.com/page/Example"
      ∈ ((analyze_dependencies (extract_citation_links
          "https://grokipedia.com/page/Example"
          ⟨[some "#cite_note-1"],
            [⟨"cite_note-1", ["#cite_ref-1", "http://b.example/t"]⟩],
            []⟩)).2).map Prod.fst :=
  (fragment_backref_counts_article_domain "https://grokipedia.com/page/Example"
      "#cite_note-1" "#cite_ref-1"
      ⟨[some "#cite_note-1"],
        [⟨"cite_note-1", ["#cite_ref-1", "http://b.example/t"]⟩], []⟩
      ⟨"cite_note-1", ["#cite_ref-1", "http://b.example/t"]⟩
      (by decide) (by decide) (by decide) (by decide) (by decide) (by decide)
      (by decide)).2.2.2.2
